import Mathlib

/-!
# Verification of the dependency-graph builder and ASCII-tree renderer

Shallow embedding of `src/main.py` (package dependency visualizer).

The two core components are:

* `build_full_dependency_graph` (Python lines 140–176): an iterative,
  stack-based traversal from a root package that materializes the mapping
  from each visited identifier to its (filtered) direct-dependency list.

* `print_ascii_tree` (Python lines 179–226): a recursive renderer that
  emits one line per rendered node, with a connector glyph, an accumulated
  indentation prefix, and a ` (.cycle.)` marker for back-edges to an
  ancestor on the current root-to-node path.

Modelling decisions:

* A dependency source (`get_deps_func` applied to its repo/test-graph
  argument, may raise) is modelled as `Resolve := String → Except Unit
  (List String)`; the `try/except` blocks of the Python code correspond to
  `edeps`, which collapses `.error` to `[]` exactly where the code does.
* Python's `dict` (insertion ordered, unique keys) is modelled as an
  association list `Graph` that the builder only ever appends to.
* Python's unbounded `while stack:` loop and the renderer's unbounded
  recursion are given an explicit fuel argument; `none` means "fuel ran
  out", `some` is a completed run.  Termination theorems show adequate
  fuel always exists for finite sources.
* Each printed line is modelled as a `TLine` record; `TLine.toStr`
  reproduces the exact string the Python `print` calls produce
  (`f"{prefix}{connector}{package}"`, optionally suffixed ` (.cycle.)`).
* The builder additionally records the trace `calls` of identifiers passed
  to the dependency source, so "never fetches / fetches exactly once"
  claims are stated about an observable value.
-/

namespace Config2

/-- `needle` is a prefix of `hay` (character lists). -/
def startsWithChars : List Char → List Char → Bool
  | [], _ => true
  | _ :: _, [] => false
  | a :: as, b :: bs => a == b && startsWithChars as bs

/-- Python's `needle in hay` on strings, over character lists: `needle`
occurs contiguously somewhere in `hay` (the empty needle always does). -/
def isSubChars : List Char → List Char → Bool
  | needle, [] => needle.isEmpty
  | needle, c :: cs => startsWithChars needle (c :: cs) || isSubChars needle cs

/-- Python truthiness test `filter_sub and filter_sub in s`
(`main.py:157`, `169`, `192`, `211`): the filter substring is non-empty
and occurs as a contiguous substring of `s`. -/
def matchesFilter (filter_sub s : String) : Bool :=
  !filter_sub.isEmpty && isSubChars filter_sub.toList s.toList

/-- A dependency source: `get_deps_func` with its `test_graph` /
`base_repo_url` argument already applied.  `.error ()` models a raised
exception. -/
abbrev Resolve := String → Except Unit (List String)

/-- The effective dependency list the Python code works with after its
`try: deps = get_deps_func(...) except Exception: deps = []` blocks
(`main.py:161–167` and `203–209`): an error collapses to `[]`. -/
def edeps (resolve : Resolve) (p : String) : List String :=
  match resolve p with
  | .ok ds => ds
  | .error _ => []

/-- The materialized dependency graph: a Python `dict` as an
insertion-ordered association list (unique keys by construction). -/
abbrev Graph := List (String × List String)

/-- `graph.get(pkg, ...)` lookup (first binding wins; keys are unique). -/
def lookupGraph : Graph → String → Option (List String)
  | [], _ => none
  | (k, vs) :: rest, pkg => if k = pkg then some vs else lookupGraph rest pkg

/-- The key list of the materialized graph, in insertion order. -/
def graphKeys (g : Graph) : List String := g.map (fun p => p.1)

/-- `get_test_deps` (`main.py:136–137`): `graph.get(pkg, [])`, never
raises. -/
def get_test_deps (g : Graph) : Resolve :=
  fun pkg => .ok ((lookupGraph g pkg).getD [])

/-- Result of one builder run: the materialized graph plus the trace of
identifiers that were passed to the dependency source (the observable
"fetches" of the run). -/
structure BuildResult where
  graph : Graph
  calls : List String
deriving Repr, DecidableEq

/-- The `while stack:` loop of `build_full_dependency_graph`
(`main.py:151–176`), with explicit fuel (one unit per iteration).

* pop from the end of the Python list = head of the Lean list;
* `if current in visited: continue` (153–154);
* filtered current: recorded as a stub `[]`, no fetch (157–159);
* otherwise fetch (161–167, recorded in `calls`), drop filtered
  dependencies (169), record the entry (170), and push the surviving,
  not-yet-visited dependencies in reversed order (172–174). -/
def build_loop (resolve : Resolve) (filter_sub : String) :
    Nat → List String → List String → Graph → List String → Option BuildResult
  | _, [], _, graph, calls => some ⟨graph, calls⟩
  | 0, _ :: _, _, _, _ => none
  | fuel + 1, current :: stack, visited, graph, calls =>
    if current ∈ visited then
      build_loop resolve filter_sub fuel stack visited graph calls
    else
      if matchesFilter filter_sub current then
        build_loop resolve filter_sub fuel stack (current :: visited)
          (graph ++ [(current, [])]) calls
      else
        let deps := edeps resolve current
        let filtered_deps := deps.filter (fun d => !matchesFilter filter_sub d)
        build_loop resolve filter_sub fuel
          (filtered_deps.reverse.foldl
            (fun st dep => if dep ∈ current :: visited then st else dep :: st) stack)
          (current :: visited)
          (graph ++ [(current, filtered_deps)])
          (calls ++ [current])

/-- `build_full_dependency_graph` (`main.py:140–176`): run the loop from
`stack = [root_package]`, `visited = set()`, `graph = {}`. -/
def build_full_dependency_graph (resolve : Resolve) (root_package filter_sub : String)
    (fuel : Nat) : Option BuildResult :=
  build_loop resolve filter_sub fuel [root_package] [] [] []

/-- One line printed by `print_ascii_tree`: the accumulated indentation
prefix, the `is_last` flag selecting the connector glyph, the package
name, and whether the ` (.cycle.)` marker is appended. -/
structure TLine where
  pre : String
  is_last : Bool
  pkg : String
  cyc : Bool
deriving Repr, DecidableEq

/-- The exact string printed for a line (`main.py:196–201`):
`f"{prefix}{connector}{package}"`, with `connector = "└── " if is_last
else "├── "`, suffixed by `" (.cycle.)"` for a cycle line. -/
def TLine.toStr (l : TLine) : String :=
  l.pre ++ (if l.is_last then "└── " else "├── ") ++ l.pkg ++
    (if l.cyc then " (.cycle.)" else "")

mutual

/-- `print_ascii_tree` (`main.py:179–226`) as a pure function returning
the printed lines in order, with explicit fuel.

* a node matching the filter contributes no output (192–193);
* a node on the ancestor path `visited` contributes exactly one
  cycle-marked line (195–198);
* otherwise its own line (200–201), then its post-filter children
  (203–226) with prefix extended by `"    "` or `"│   "` (216) and
  `is_last` true exactly for the final child (215). -/
def print_ascii_tree (get_deps : Resolve) (filter_sub : String) :
    Nat → String → String → Bool → List String → Option (List TLine)
  | 0, _, _, _, _ => none
  | fuel + 1, package, pre, is_last, visited =>
    if matchesFilter filter_sub package then some []
    else if package ∈ visited then some [⟨pre, is_last, package, true⟩]
    else
      match render_children get_deps filter_sub fuel
          ((edeps get_deps package).filter (fun d => !matchesFilter filter_sub d))
          (pre ++ (if is_last then "    " else "│   "))
          (visited ++ [package]) with
      | some ls => some (⟨pre, is_last, package, false⟩ :: ls)
      | none => none

/-- The `for i, child in enumerate(deps)` loop of `print_ascii_tree`
(`main.py:214–226`): render each child in order; `is_last_child` is true
exactly when no further sibling remains. -/
def render_children (get_deps : Resolve) (filter_sub : String) :
    Nat → List String → String → List String → Option (List TLine)
  | _, [], _, _ => some []
  | 0, _ :: _, _, _ => none
  | fuel + 1, child :: rest, pre, visited =>
    match print_ascii_tree get_deps filter_sub fuel child pre rest.isEmpty visited with
    | none => none
    | some ls =>
      match render_children get_deps filter_sub fuel rest pre visited with
      | none => none
      | some ls2 => some (ls ++ ls2)

end

/-- The `--ascii-tree` pipeline of `main` (`main.py:272–292`): build the
full graph, then render from the root via `get_deps_from_graph`
(`main.py:284–285`, a pure lookup into the built graph defaulting to
`[]`), with prefix `""` and `is_last=True`, returning the printed tree
lines as strings. -/
def ascii_tree_lines (resolve : Resolve) (root filter_sub : String) (fuel : Nat) :
    Option (List String) :=
  match build_full_dependency_graph resolve root filter_sub fuel with
  | none => none
  | some res =>
    match print_ascii_tree (get_test_deps res.graph) filter_sub fuel root "" true [] with
    | none => none
    | some lines => some (lines.map TLine.toStr)

/-- The mode dispatch of `main` (`main.py:272–307`).  `.ok lines` models
a successful run printing `lines`; `.error ()` models the `except` branch
that reports the error and calls `sys.exit(1)` (non-zero exit status).
In non-tree mode (`main.py:293–307`) the root's dependencies are printed
directly (two-space indent, `"  (none)"` when empty) and a resolution
failure at the root is fatal. -/
def run_query (resolve : Resolve) (root filter_sub : String) (ascii_tree : Bool)
    (fuel : Nat) : Option (Except Unit (List String)) :=
  if ascii_tree then
    match ascii_tree_lines resolve root filter_sub fuel with
    | none => none
    | some lines => some (.ok lines)
  else
    match resolve root with
    | .ok deps =>
      some (.ok (if deps.isEmpty then ["  (none)"] else deps.map (fun d => "  " ++ d)))
    | .error e => some (.error e)

/-- The spec's first fixture graph `{A: [B, C], B: [C], C: []}`. -/
def fixture1 : Graph := [("A", ["B", "C"]), ("B", ["C"]), ("C", [])]

/-- The spec's cyclic fixture graph `{A: [B], B: [A]}`. -/
def fixture2 : Graph := [("A", ["B"]), ("B", ["A"])]

end Config2

namespace Config2

/-! ## Basic facts about the empty filter -/

/-- With an empty filter substring no identifier matches
(Python: `filter_sub and ...` is falsy for `filter_sub = ""`). -/
theorem matchesFilter_empty (s : String) : matchesFilter "" s = false := rfl

/-- With an empty filter substring the dependency-list filter keeps
every element. -/
theorem filter_matchesFilter_empty (l : List String) :
    l.filter (fun d => !matchesFilter "" d) = l := by
  induction l with
  | nil => rfl
  | cons a t ih => simp [List.filter, matchesFilter_empty, ih]

end Config2

namespace Config2

/-! ## C1 and C2: the fixture trees

`main` invokes `print_ascii_tree` with the default arguments
`prefix=""`, `is_last=True` (`main.py:287–292`), so the *root* line is
printed as `└── A` — the root line does carry a connector glyph, and
every child is indented one extra 4-character unit compared with the
spec's examples. -/

/-- C1 (counterexample): the fixture graph `{A: [B, C], B: [C], C: []}`
rendered from root `A` with an empty filter does **not** produce the
four lines `A` / `├── B` / `│   └── C` / `└── C` claimed by the spec. -/
theorem fixture1_tree_not_as_claimed :
    ascii_tree_lines (get_test_deps fixture1) "A" "" 10 ≠
      some ["A", "├── B", "│   └── C", "└── C"] := by decide

/-- C1 (amended): rendering the fixture graph `{A: [B, C], B: [C], C: []}`
with root `A` and an empty filter produces exactly the four lines
`└── A` / `    ├── B` / `    │   └── C` / `    └── C` in that order: the
root line carries the last-sibling connector `└── ` (the renderer is
called with its defaults `prefix=""`, `is_last=True`), and every child
level is indented by one further 4-character unit. -/
theorem fixture1_tree_lines :
    ascii_tree_lines (get_test_deps fixture1) "A" "" 10 =
      some ["└── A", "    ├── B", "    │   └── C", "    └── C"] := rfl

/-- C2 (counterexample): the cyclic fixture graph `{A: [B], B: [A]}`
rendered from root `A` does **not** produce the three lines
`A` / `└── B` / `    └── A (.cycle.)` claimed by the spec. -/
theorem fixture2_tree_not_as_claimed :
    ascii_tree_lines (get_test_deps fixture2) "A" "" 10 ≠
      some ["A", "└── B", "    └── A (.cycle.)"] := by decide

/-- C2 (amended): rendering the cyclic fixture graph `{A: [B], B: [A]}`
with root `A` and an empty filter produces exactly the three lines
`└── A` / `    └── B` / `        └── A (.cycle.)` in that order: the
back-edge to `A` is printed once with the cycle marker, each level is
indented by one 4-character unit (`"    "`), and the root line carries
the last-sibling connector `└── `. -/
theorem fixture2_tree_lines :
    ascii_tree_lines (get_test_deps fixture2) "A" "" 10 =
      some ["└── A", "    └── B", "        └── A (.cycle.)"] := rfl

/-! ## C3: cycle handling in the renderer -/

/-- C3: a render call on a node that does not match the filter substring
but already occurs in the ancestor path `visited` emits exactly one
line — the node suffixed with the cycle marker ` (.cycle.)` — and
nothing else: no descendant of it is rendered, and the node's dependency
lookup is never invoked (the result is this single line for **every**
dependency source `get_deps`, which is bound only under the recursion
that is not taken). -/
theorem render_cycle_single_line (get_deps : Resolve) (filter_sub : String)
    (fuel : Nat) (package pre : String) (is_last : Bool) (visited : List String)
    (hm : matchesFilter filter_sub package = false) (hv : package ∈ visited) :
    print_ascii_tree get_deps filter_sub (fuel + 1) package pre is_last visited =
        some [⟨pre, is_last, package, true⟩] ∧
      TLine.toStr ⟨pre, is_last, package, true⟩ =
        pre ++ (if is_last then "└── " else "├── ") ++ package ++ " (.cycle.)" := by
  constructor
  · simp [print_ascii_tree, hm, hv]
  · rfl

/-- Witness for C3: in the cyclic fixture, the render call on `A` with
ancestor path `[A, B]` (as reached below `A → B`) emits the single
cycle-marked line. -/
theorem render_cycle_single_line_witness :
    matchesFilter "" "A" = false ∧ ("A" : String) ∈ ["A", "B"] ∧
      (print_ascii_tree (get_test_deps fixture2) "" 8 "A" "        " true ["A", "B"] =
          some [⟨"        ", true, "A", true⟩] ∧
        TLine.toStr ⟨"        ", true, "A", true⟩ =
          "        " ++ (if true then "└── " else "├── ") ++ "A" ++ " (.cycle.)") :=
  ⟨rfl, by decide,
    render_cycle_single_line (get_test_deps fixture2) "" 7 "A" "        " true
      ["A", "B"] rfl (by decide)⟩

end Config2

namespace Config2

/-! ## Step lemmas for the builder loop -/

/-- The push loop `for dep in reversed(filtered_deps): if dep not in
visited: stack.append(dep)` (`main.py:172–174`): pushing in reversed
order puts the not-yet-visited dependencies on top of the stack in their
original left-to-right order. -/
theorem push_reversed_eq (vis : List String) (l stack : List String) :
    l.reverse.foldl (fun st dep => if dep ∈ vis then st else dep :: st) stack =
      l.filter (fun d => !decide (d ∈ vis)) ++ stack := by
  induction l generalizing stack with
  | nil => rfl
  | cons a t ih =>
    rw [List.reverse_cons, List.foldl_append, ih]
    by_cases h : a ∈ vis <;> simp [h]

/-- One builder iteration on an already-visited node: skipped
(`main.py:153–154`). -/
theorem build_loop_skip (resolve : Resolve) (fs : String) (fuel : Nat)
    (current : String) (stack visited : List String) (graph : Graph)
    (calls : List String) (hv : current ∈ visited) :
    build_loop resolve fs (fuel + 1) (current :: stack) visited graph calls =
      build_loop resolve fs fuel stack visited graph calls := by
  simp [build_loop, hv]

/-- One builder iteration on a fresh node that matches the filter: a stub
entry is recorded, nothing is fetched, nothing is pushed
(`main.py:157–159`). -/
theorem build_loop_step_matched (resolve : Resolve) (fs : String) (fuel : Nat)
    (current : String) (stack visited : List String) (graph : Graph)
    (calls : List String) (hv : current ∉ visited)
    (hm : matchesFilter fs current = true) :
    build_loop resolve fs (fuel + 1) (current :: stack) visited graph calls =
      build_loop resolve fs fuel stack (current :: visited)
        (graph ++ [(current, [])]) calls := by
  simp [build_loop, hv, hm]

/-- One builder iteration on a fresh, unfiltered node: its dependencies
are fetched, the filtered list is recorded, and the surviving
not-yet-visited dependencies end up on top of the stack in original
order (`main.py:161–174`). -/
theorem build_loop_step (resolve : Resolve) (fs : String) (fuel : Nat)
    (current : String) (stack visited : List String) (graph : Graph)
    (calls : List String) (hv : current ∉ visited)
    (hm : matchesFilter fs current = false) :
    build_loop resolve fs (fuel + 1) (current :: stack) visited graph calls =
      build_loop resolve fs fuel
        (((edeps resolve current).filter (fun d => !matchesFilter fs d)).filter
            (fun d => !decide (d ∈ current :: visited)) ++ stack)
        (current :: visited)
        (graph ++ [(current, (edeps resolve current).filter (fun d => !matchesFilter fs d))])
        (calls ++ [current]) := by
  simp only [build_loop, if_neg hv, hm, Bool.false_eq_true, if_false, push_reversed_eq]

end Config2

namespace Config2

/-! ## Unfolding lemmas for the renderer -/

/-- Unfolding a render call on a fresh, unfiltered node: its own line
followed by the rendering of its post-filter children under the extended
prefix and the extended ancestor path (`main.py:200–226`). -/
theorem print_ascii_tree_expand (gd : Resolve) (fs : String) (fuel : Nat)
    (package pre : String) (is_last : Bool) (visited : List String)
    (hm : matchesFilter fs package = false) (hv : package ∉ visited) :
    print_ascii_tree gd fs (fuel + 1) package pre is_last visited =
      (render_children gd fs fuel
          ((edeps gd package).filter (fun d => !matchesFilter fs d))
          (pre ++ (if is_last then "    " else "│   "))
          (visited ++ [package])).map
        (fun ls => ⟨pre, is_last, package, false⟩ :: ls) := by
  simp only [print_ascii_tree, hm, Bool.false_eq_true, if_false, if_neg hv]
  cases render_children gd fs fuel
      ((edeps gd package).filter (fun d => !matchesFilter fs d))
      (pre ++ (if is_last then "    " else "│   "))
      (visited ++ [package]) <;> rfl

/-- Unfolding one step of the child loop: the head child is rendered
with `is_last` true exactly when it has no further sibling, then the
remaining children follow (`main.py:214–226`). -/
theorem render_children_cons (gd : Resolve) (fs : String) (fuel : Nat)
    (child : String) (rest : List String) (pre : String) (visited : List String) :
    render_children gd fs (fuel + 1) (child :: rest) pre visited =
      match print_ascii_tree gd fs fuel child pre rest.isEmpty visited with
      | none => none
      | some ls =>
        match render_children gd fs fuel rest pre visited with
        | none => none
        | some ls2 => some (ls ++ ls2) := rfl

end Config2

namespace Config2

/-- Every line the renderer emits is for a package that does not match
the filter substring: a matching node returns before printing
(`main.py:192–193`) and matching dependencies are removed before the
child loop (`main.py:211`). -/
theorem render_lines_not_matched (gd : Resolve) (fs : String) : ∀ fuel : Nat,
    (∀ (package pre : String) (is_last : Bool) (visited : List String) ls,
      print_ascii_tree gd fs fuel package pre is_last visited = some ls →
      ∀ l ∈ ls, matchesFilter fs l.pkg = false) ∧
    (∀ (ds : List String) (pre : String) (visited : List String) ls,
      render_children gd fs fuel ds pre visited = some ls →
      ∀ l ∈ ls, matchesFilter fs l.pkg = false) := by
  intro fuel
  induction fuel with
  | zero =>
    constructor
    · intro package pre is_last visited ls h
      simp [print_ascii_tree] at h
    · intro ds pre visited ls h
      cases ds with
      | nil =>
        simp [render_children] at h
        subst h
        simp
      | cons c rest => simp [render_children] at h
  | succ n ih =>
    constructor
    · intro package pre is_last visited ls h l hl
      cases hm : matchesFilter fs package with
      | true =>
        simp [print_ascii_tree, hm] at h
        subst h
        simp at hl
      | false =>
        by_cases hv : package ∈ visited
        · simp [print_ascii_tree, hm, hv] at h
          rw [← h] at hl
          simp at hl
          rw [hl]
          exact hm
        · rw [print_ascii_tree_expand gd fs n package pre is_last visited hm hv] at h
          cases hc : render_children gd fs n
              ((edeps gd package).filter (fun d => !matchesFilter fs d))
              (pre ++ (if is_last then "    " else "│   "))
              (visited ++ [package]) with
          | none => rw [hc] at h; simp at h
          | some kids =>
            rw [hc] at h
            simp at h
            rw [← h] at hl
            rcases List.mem_cons.mp hl with h1 | h2
            · rw [h1]; exact hm
            · exact (ih.2 _ _ _ _ hc) l h2
    · intro ds pre visited ls h l hl
      cases ds with
      | nil =>
        simp [render_children] at h
        subst h
        simp at hl
      | cons c rest =>
        rw [render_children_cons] at h
        cases hp : print_ascii_tree gd fs n c pre rest.isEmpty visited with
        | none => rw [hp] at h; simp at h
        | some ls1 =>
          cases hk : render_children gd fs n rest pre visited with
          | none => rw [hp, hk] at h; simp at h
          | some ls2 =>
            rw [hp, hk] at h
            simp at h
            rw [← h] at hl
            rcases List.mem_append.mp hl with h1 | h2
            · exact (ih.1 _ _ _ _ _ hp) l h1
            · exact (ih.2 _ _ _ _ hk) l h2

end Config2

namespace Config2

/-! ## Builder invariants about the filter -/

/-- Every dependency list the builder records is free of
filter-matching identifiers: a matched node is recorded with `[]`
(`main.py:158`) and matched dependencies are removed before recording
(`main.py:169`). -/
theorem build_values_not_matched (resolve : Resolve) (fs : String) :
    ∀ (fuel : Nat) (stack visited : List String) (graph : Graph) (calls : List String)
      (res : BuildResult),
      build_loop resolve fs fuel stack visited graph calls = some res →
      (∀ p ∈ graph, ∀ d ∈ p.2, matchesFilter fs d = false) →
      ∀ p ∈ res.graph, ∀ d ∈ p.2, matchesFilter fs d = false := by
  intro fuel
  induction fuel with
  | zero =>
    intro stack visited graph calls res h hg
    cases stack with
    | nil =>
      simp [build_loop] at h
      subst h
      exact hg
    | cons c rest => simp [build_loop] at h
  | succ n ih =>
    intro stack visited graph calls res h hg
    cases stack with
    | nil =>
      simp [build_loop] at h
      subst h
      exact hg
    | cons current rest =>
      by_cases hv : current ∈ visited
      · rw [build_loop_skip _ _ _ _ _ _ _ _ hv] at h
        exact ih rest visited graph calls res h hg
      · cases hm : matchesFilter fs current with
        | true =>
          rw [build_loop_step_matched _ _ _ _ _ _ _ _ hv hm] at h
          refine ih _ _ _ _ _ h ?_
          intro p hp d hd
          rcases List.mem_append.mp hp with h1 | h2
          · exact hg p h1 d hd
          · simp at h2
            rw [h2] at hd
            simp at hd
        | false =>
          rw [build_loop_step _ _ _ _ _ _ _ _ hv hm] at h
          refine ih _ _ _ _ _ h ?_
          intro p hp d hd
          rcases List.mem_append.mp hp with h1 | h2
          · exact hg p h1 d hd
          · simp at h2
            rw [h2] at hd
            simp at hd
            exact hd.2

/-- Every graph entry whose key matches the filter substring is a stub:
its recorded dependency list is `[]` (`main.py:157–159`). -/
theorem build_matched_keys_stub (resolve : Resolve) (fs : String) :
    ∀ (fuel : Nat) (stack visited : List String) (graph : Graph) (calls : List String)
      (res : BuildResult),
      build_loop resolve fs fuel stack visited graph calls = some res →
      (∀ p ∈ graph, matchesFilter fs p.1 = true → p.2 = []) →
      ∀ p ∈ res.graph, matchesFilter fs p.1 = true → p.2 = [] := by
  intro fuel
  induction fuel with
  | zero =>
    intro stack visited graph calls res h hg
    cases stack with
    | nil =>
      simp [build_loop] at h
      subst h
      exact hg
    | cons c rest => simp [build_loop] at h
  | succ n ih =>
    intro stack visited graph calls res h hg
    cases stack with
    | nil =>
      simp [build_loop] at h
      subst h
      exact hg
    | cons current rest =>
      by_cases hv : current ∈ visited
      · rw [build_loop_skip _ _ _ _ _ _ _ _ hv] at h
        exact ih rest visited graph calls res h hg
      · cases hm : matchesFilter fs current with
        | true =>
          rw [build_loop_step_matched _ _ _ _ _ _ _ _ hv hm] at h
          refine ih _ _ _ _ _ h ?_
          intro p hp hpk
          rcases List.mem_append.mp hp with h1 | h2
          · exact hg p h1 hpk
          · simp at h2
            rw [h2]
        | false =>
          rw [build_loop_step _ _ _ _ _ _ _ _ hv hm] at h
          refine ih _ _ _ _ _ h ?_
          intro p hp hpk
          rcases List.mem_append.mp hp with h1 | h2
          · exact hg p h1 hpk
          · simp at h2
            rw [h2] at hpk
            simp at hpk
            rw [hpk] at hm
            cases hm

end Config2

namespace Config2

/-- The conjunction claimed for a filter substring `fs` and source
`resolve`:

1. no rendered line's package matches `fs` (so no matching identifier
   appears anywhere in tree output, neither as a node nor below one);
2. a reached (popped, not yet visited) identifier matching `fs` is
   recorded as a stub key with an empty dependency list, and the
   fetch trace `calls` is not extended — its dependencies are not
   fetched — while traversal simply continues with the rest of the
   stack;
3. every completed build from a root records no matching identifier in
   any dependency list (matching dependencies are removed);
4. every recorded entry whose key matches `fs` has the empty dependency
   list. -/
def FilterAppliedEverywhere (resolve : Resolve) (fs : String) : Prop :=
  (∀ (fuel : Nat) (package pre : String) (is_last : Bool) (visited : List String) ls,
    print_ascii_tree resolve fs fuel package pre is_last visited = some ls →
    ∀ l ∈ ls, matchesFilter fs l.pkg = false) ∧
  (∀ (fuel : Nat) (current : String) (stack visited : List String) (graph : Graph)
    (calls : List String), current ∉ visited → matchesFilter fs current = true →
    build_loop resolve fs (fuel + 1) (current :: stack) visited graph calls =
      build_loop resolve fs fuel stack (current :: visited)
        (graph ++ [(current, [])]) calls) ∧
  (∀ (root : String) (fuel : Nat) (res : BuildResult),
    build_full_dependency_graph resolve root fs fuel = some res →
    ∀ p ∈ res.graph, ∀ d ∈ p.2, matchesFilter fs d = false) ∧
  (∀ (root : String) (fuel : Nat) (res : BuildResult),
    build_full_dependency_graph resolve root fs fuel = some res →
    ∀ p ∈ res.graph, matchesFilter fs p.1 = true → p.2 = [])

/-- C4: for every non-empty filter substring, no matching identifier
appears anywhere in rendered tree output; the builder still records a
reached matching identifier as a stub key with an empty dependency list
without fetching its dependencies, and removes every matching dependency
from each recorded dependency list. -/
theorem filter_applied_everywhere (resolve : Resolve) (fs : String)
    (_hfs : fs ≠ "") : FilterAppliedEverywhere resolve fs := by
  refine ⟨?_, ?_, ?_, ?_⟩
  · intro fuel package pre is_last visited ls h
    exact (render_lines_not_matched resolve fs fuel).1 package pre is_last visited ls h
  · intro fuel current stack visited graph calls hv hm
    exact build_loop_step_matched resolve fs fuel current stack visited graph calls hv hm
  · intro root fuel res h
    exact build_values_not_matched resolve fs fuel [root] [] [] [] res h (by simp)
  · intro root fuel res h
    exact build_matched_keys_stub resolve fs fuel [root] [] [] [] res h (by simp)

/-- Witness for C4: the filter substring `"C"` on the first fixture. -/
theorem filter_applied_everywhere_witness :
    ("C" : String) ≠ "" ∧ FilterAppliedEverywhere (get_test_deps fixture1) "C" :=
  ⟨by decide, filter_applied_everywhere (get_test_deps fixture1) "C" (by decide)⟩

end Config2

namespace Config2

/-! ## C5: per-node resolution failures are swallowed -/

/-- `resolve` with the answer at `n` replaced by `ok []`: the reference
behaviour the failure policy promises ("a failed lookup yields an empty
list, not a propagated error"). -/
def with_ok_empty (n : String) (resolve : Resolve) : Resolve :=
  fun p => if p = n then .ok [] else resolve p

/-- If `resolve` fails at `n`, patching that failure to `ok []` does not
change any effective dependency list. -/
theorem edeps_with_ok_empty (resolve : Resolve) (n : String)
    (herr : resolve n = .error ()) (p : String) :
    edeps resolve p = edeps (with_ok_empty n resolve) p := by
  by_cases hp : p = n
  · subst hp
    simp [edeps, with_ok_empty, herr]
  · simp [edeps, with_ok_empty, hp]

/-- The builder is a function of the effective dependency lists only:
two sources whose `try/except`-collapsed answers agree produce
identical runs. -/
theorem build_loop_congr (r1 r2 : Resolve) (fs : String)
    (he : ∀ p, edeps r1 p = edeps r2 p) :
    ∀ (fuel : Nat) (stack visited : List String) (graph : Graph) (calls : List String),
      build_loop r1 fs fuel stack visited graph calls =
        build_loop r2 fs fuel stack visited graph calls := by
  intro fuel
  induction fuel with
  | zero =>
    intro stack visited graph calls
    cases stack <;> simp [build_loop]
  | succ n ih =>
    intro stack visited graph calls
    cases stack with
    | nil => simp [build_loop]
    | cons current rest =>
      by_cases hv : current ∈ visited
      · rw [build_loop_skip r1 fs n current rest visited graph calls hv,
          build_loop_skip r2 fs n current rest visited graph calls hv, ih]
      · cases hm : matchesFilter fs current with
        | true =>
          rw [build_loop_step_matched r1 fs n current rest visited graph calls hv hm,
            build_loop_step_matched r2 fs n current rest visited graph calls hv hm, ih]
        | false =>
          rw [build_loop_step r1 fs n current rest visited graph calls hv hm,
            build_loop_step r2 fs n current rest visited graph calls hv hm,
            he current, ih]

/-- The renderer likewise depends on the dependency source only through
the effective (error-collapsed) dependency lists. -/
theorem render_congr (r1 r2 : Resolve) (fs : String)
    (he : ∀ p, edeps r1 p = edeps r2 p) : ∀ fuel : Nat,
    (∀ (package pre : String) (is_last : Bool) (visited : List String),
      print_ascii_tree r1 fs fuel package pre is_last visited =
        print_ascii_tree r2 fs fuel package pre is_last visited) ∧
    (∀ (ds : List String) (pre : String) (visited : List String),
      render_children r1 fs fuel ds pre visited =
        render_children r2 fs fuel ds pre visited) := by
  intro fuel
  induction fuel with
  | zero =>
    constructor
    · intro package pre is_last visited; rfl
    · intro ds pre visited; cases ds <;> rfl
  | succ n ih =>
    constructor
    · intro package pre is_last visited
      cases hm : matchesFilter fs package with
      | true => simp [print_ascii_tree, hm]
      | false =>
        by_cases hv : package ∈ visited
        · simp [print_ascii_tree, hm, hv]
        · rw [print_ascii_tree_expand r1 fs n package pre is_last visited hm hv,
            print_ascii_tree_expand r2 fs n package pre is_last visited hm hv,
            he package, ih.2]
    · intro ds pre visited
      cases ds with
      | nil => rfl
      | cons c rest =>
        rw [render_children_cons, render_children_cons, ih.1, ih.2]

/-- The conjunction claimed when `resolve` fails at node `n`:

1. the builder, popping the fresh unfiltered node `n`, records it with
   an empty dependency list, pushes nothing, and continues with the rest
   of the stack;
2. the whole build is identical to the build in which the failure is
   replaced by a successful empty answer — the error is swallowed and
   never alters the result or aborts the run;
3. the renderer prints `n` as a single line with zero children;
4. the whole rendering is likewise identical to rendering with the
   patched, never-failing source. -/
def ErrorSwallowed (resolve : Resolve) (n : String) : Prop :=
  (∀ (fs : String) (fuel : Nat) (stack visited : List String) (graph : Graph)
    (calls : List String), n ∉ visited → matchesFilter fs n = false →
    build_loop resolve fs (fuel + 1) (n :: stack) visited graph calls =
      build_loop resolve fs fuel stack (n :: visited)
        (graph ++ [(n, [])]) (calls ++ [n])) ∧
  (∀ (fs : String) (fuel : Nat) (stack visited : List String) (graph : Graph)
    (calls : List String),
    build_loop resolve fs fuel stack visited graph calls =
      build_loop (with_ok_empty n resolve) fs fuel stack visited graph calls) ∧
  (∀ (fs : String) (fuel : Nat) (pre : String) (is_last : Bool)
    (visited : List String), matchesFilter fs n = false → n ∉ visited →
    print_ascii_tree resolve fs (fuel + 1) n pre is_last visited =
      some [⟨pre, is_last, n, false⟩]) ∧
  (∀ (fs : String) (fuel : Nat) (package pre : String) (is_last : Bool)
    (visited : List String),
    print_ascii_tree resolve fs fuel package pre is_last visited =
      print_ascii_tree (with_ok_empty n resolve) fs fuel package pre is_last visited)

/-- C5: a node whose dependency resolution fails is recorded with an
empty dependency list and traversal continues; the renderer prints it
with zero children; and in both components the failure is
indistinguishable from a successful empty answer, so it never aborts a
run and never propagates to the caller. -/
theorem resolution_error_swallowed (resolve : Resolve) (n : String)
    (herr : resolve n = .error ()) : ErrorSwallowed resolve n := by
  have hd : edeps resolve n = [] := by simp [edeps, herr]
  refine ⟨?_, ?_, ?_, ?_⟩
  · intro fs fuel stack visited graph calls hv hm
    rw [build_loop_step resolve fs fuel n stack visited graph calls hv hm, hd]
    simp
  · intro fs fuel stack visited graph calls
    exact build_loop_congr resolve (with_ok_empty n resolve) fs
      (edeps_with_ok_empty resolve n herr) fuel stack visited graph calls
  · intro fs fuel pre is_last visited hm hv
    rw [print_ascii_tree_expand resolve fs fuel n pre is_last visited hm hv, hd]
    simp [render_children]
  · intro fs fuel package pre is_last visited
    exact (render_congr resolve (with_ok_empty n resolve) fs
      (edeps_with_ok_empty resolve n herr) fuel).1 package pre is_last visited

/-- A dependency source for the first fixture whose resolution of `"B"`
raises. -/
def fixture1_failing_B : Resolve :=
  fun p => if p = "B" then .error () else get_test_deps fixture1 p

/-- Witness for C5: the fixture source that fails at `"B"`. -/
theorem resolution_error_swallowed_witness :
    fixture1_failing_B "B" = .error () ∧ ErrorSwallowed fixture1_failing_B "B" :=
  ⟨rfl, resolution_error_swallowed fixture1_failing_B "B" rfl⟩

end Config2

namespace Config2

/-! ## C8: root resolution failure in the two CLI modes -/

/-- C8: if resolving the root's dependencies fails, the non-tree
(direct-dependencies) mode of `main` reports the error and exits
non-zero (`main.py:305–307`, modelled by `.error ()`), while
`--ascii-tree` mode still succeeds: the builder records the root with an
empty list and the tree printed is the single root line with zero
children (`└── root`). -/
theorem root_error_modes (resolve : Resolve) (root filter_sub : String)
    (fuel : Nat) (herr : resolve root = .error ())
    (hm : matchesFilter filter_sub root = false) :
    run_query resolve root filter_sub false fuel = some (.error ()) ∧
      run_query resolve root filter_sub true (fuel + 1) =
        some (.ok [TLine.toStr ⟨"", true, root, false⟩]) := by
  have hd : edeps resolve root = [] := by simp [edeps, herr]
  constructor
  · simp [run_query, herr]
  · have hbuild : build_full_dependency_graph resolve root filter_sub (fuel + 1) =
        some ⟨[(root, [])], [root]⟩ := by
      unfold build_full_dependency_graph
      rw [build_loop_step resolve filter_sub fuel root [] [] [] []
        (by simp) hm, hd]
      simp [build_loop]
    have hrender : print_ascii_tree (get_test_deps [(root, [])]) filter_sub
        (fuel + 1) root "" true [] = some [⟨"", true, root, false⟩] := by
      rw [print_ascii_tree_expand (get_test_deps [(root, [])]) filter_sub fuel
        root "" true [] hm (by simp)]
      simp [edeps, get_test_deps, lookupGraph, render_children]
    simp [run_query, ascii_tree_lines, hbuild, hrender]

/-- A dependency source that fails on every identifier. -/
def always_failing : Resolve := fun _ => .error ()

/-- Witness for C8: a root whose resolution always fails, no filter. -/
theorem root_error_modes_witness :
    always_failing "R" = .error () ∧ matchesFilter "" "R" = false ∧
      (run_query always_failing "R" "" false 5 = some (.error ()) ∧
        run_query always_failing "R" "" true 6 =
          some (.ok [TLine.toStr ⟨"", true, "R", false⟩])) :=
  ⟨rfl, rfl, root_error_modes always_failing "R" "" 5 rfl rfl⟩

end Config2

namespace Config2

/-! ## C6: sibling order and last-sibling connectors -/

/-- The expected `is_last` flags for `n` children: `true` exactly on the
final one (Python `is_last_child = (i == len(deps) - 1)`,
`main.py:215`). -/
def lastFlags : Nat → List Bool
  | 0 => []
  | 1 => [true]
  | n + 2 => false :: lastFlags (n + 1)

/-- Every line a render call emits carries an indentation prefix at
least as long as the call's prefix (children extend it by a 4-character
unit, `main.py:216`). -/
theorem render_prefix_length (gd : Resolve) (fs : String) : ∀ fuel : Nat,
    (∀ (package pre : String) (is_last : Bool) (visited : List String) ls,
      print_ascii_tree gd fs fuel package pre is_last visited = some ls →
      ∀ l ∈ ls, pre.length ≤ l.pre.length) ∧
    (∀ (ds : List String) (pre : String) (visited : List String) ls,
      render_children gd fs fuel ds pre visited = some ls →
      ∀ l ∈ ls, pre.length ≤ l.pre.length) := by
  intro fuel
  induction fuel with
  | zero =>
    constructor
    · intro package pre is_last visited ls h
      simp [print_ascii_tree] at h
    · intro ds pre visited ls h
      cases ds with
      | nil =>
        simp [render_children] at h
        subst h
        simp
      | cons c rest => simp [render_children] at h
  | succ n ih =>
    constructor
    · intro package pre is_last visited ls h l hl
      cases hm : matchesFilter fs package with
      | true =>
        simp [print_ascii_tree, hm] at h
        subst h
        simp at hl
      | false =>
        by_cases hv : package ∈ visited
        · simp [print_ascii_tree, hm, hv] at h
          rw [← h] at hl
          simp at hl
          rw [hl]
        · rw [print_ascii_tree_expand gd fs n package pre is_last visited hm hv] at h
          cases hc : render_children gd fs n
              ((edeps gd package).filter (fun d => !matchesFilter fs d))
              (pre ++ (if is_last then "    " else "│   "))
              (visited ++ [package]) with
          | none => rw [hc] at h; simp at h
          | some kids =>
            rw [hc] at h
            simp at h
            rw [← h] at hl
            rcases List.mem_cons.mp hl with h1 | h2
            · rw [h1]
            · have hk := (ih.2 _ _ _ _ hc) l h2
              calc pre.length
                  ≤ (pre ++ (if is_last then "    " else "│   ")).length := by
                    rw [String.length_append]; omega
                _ ≤ l.pre.length := hk
    · intro ds pre visited ls h l hl
      cases ds with
      | nil =>
        simp [render_children] at h
        subst h
        simp at hl
      | cons c rest =>
        rw [render_children_cons] at h
        cases hp : print_ascii_tree gd fs n c pre rest.isEmpty visited with
        | none => rw [hp] at h; simp at h
        | some ls1 =>
          cases hk : render_children gd fs n rest pre visited with
          | none => rw [hp, hk] at h; simp at h
          | some ls2 =>
            rw [hp, hk] at h
            simp at h
            rw [← h] at hl
            rcases List.mem_append.mp hl with h1 | h2
            · exact (ih.1 _ _ _ _ _ hp) l h1
            · exact (ih.2 _ _ _ _ hk) l h2

/-- The 4-character indent units. -/
theorem indent_unit_length (is_last : Bool) :
    (if is_last then "    " else "│   " : String).length = 4 := by
  cases is_last <;> decide

/-- Among the lines a render call emits, exactly those with the call's
own prefix are the node's own line: the node's line if it is rendered
normally or as a cycle, nothing if it is filtered out; all descendant
lines carry strictly longer prefixes. -/
theorem print_head_lines (gd : Resolve) (fs : String) (fuel : Nat)
    (package pre : String) (is_last : Bool) (visited : List String) (ls : List TLine)
    (h : print_ascii_tree gd fs fuel package pre is_last visited = some ls) :
    ls.filter (fun l => l.pre == pre) =
      if matchesFilter fs package then []
      else [⟨pre, is_last, package, decide (package ∈ visited)⟩] := by
  cases fuel with
  | zero => simp [print_ascii_tree] at h
  | succ n =>
    cases hm : matchesFilter fs package with
    | true =>
      simp [print_ascii_tree, hm] at h
      subst h
      simp [hm]
    | false =>
      by_cases hv : package ∈ visited
      · simp [print_ascii_tree, hm, hv] at h
        subst h
        simp [hm, hv]
      · rw [print_ascii_tree_expand gd fs n package pre is_last visited hm hv] at h
        cases hc : render_children gd fs n
            ((edeps gd package).filter (fun d => !matchesFilter fs d))
            (pre ++ (if is_last then "    " else "│   "))
            (visited ++ [package]) with
        | none => rw [hc] at h; simp at h
        | some kids =>
          rw [hc] at h
          simp at h
          have hkids : kids.filter (fun l => l.pre == pre) = [] := by
            rw [List.filter_eq_nil_iff]
            intro l hl
            have hlen := (render_prefix_length gd fs n).2 _ _ _ _ hc l hl
            rw [String.length_append, indent_unit_length] at hlen
            simp only [beq_iff_eq]
            intro hEq
            rw [hEq] at hlen
            omega
          rw [← h, List.filter_cons]
          simp [hkids, hm, hv]

/-- Rendering a child list of pairwise-unfiltered identifiers emits, at
the shared child prefix, exactly one line per child, in the given order,
with `is_last` true exactly on the final child. -/
theorem render_children_heads (gd : Resolve) (fs : String) :
    ∀ (ds : List String) (fuel : Nat) (pre : String) (visited : List String)
      (ls : List TLine),
      render_children gd fs fuel ds pre visited = some ls →
      (∀ d ∈ ds, matchesFilter fs d = false) →
      (ls.filter (fun l => l.pre == pre)).map (fun l => l.pkg) = ds ∧
        (ls.filter (fun l => l.pre == pre)).map (fun l => l.is_last) =
          lastFlags ds.length := by
  intro ds
  induction ds with
  | nil =>
    intro fuel pre visited ls h _
    cases fuel with
    | zero =>
      simp [render_children] at h
      subst h
      simp [lastFlags]
    | succ n =>
      simp [render_children] at h
      subst h
      simp [lastFlags]
  | cons c rest ih =>
    intro fuel pre visited ls h hds
    cases fuel with
    | zero => simp [render_children] at h
    | succ n =>
      rw [render_children_cons] at h
      cases hp : print_ascii_tree gd fs n c pre rest.isEmpty visited with
      | none => rw [hp] at h; simp at h
      | some ls1 =>
        cases hk : render_children gd fs n rest pre visited with
        | none => rw [hp, hk] at h; simp at h
        | some ls2 =>
          rw [hp, hk] at h
          simp at h
          have hc_unmatched : matchesFilter fs c = false := hds c (by simp)
          have h1 := print_head_lines gd fs n c pre rest.isEmpty visited ls1 hp
          rw [hc_unmatched] at h1
          simp at h1
          have ihr := ih n pre visited ls2 hk (fun d hd => hds d (by simp [hd]))
          rw [← h, List.filter_append, h1]
          constructor
          · simp [ihr.1]
          · simp only [List.map_append, ihr.2, List.map_cons, List.map_nil]
            cases rest with
            | nil => simp [lastFlags]
            | cons x xs => simp [lastFlags]

end Config2

namespace Config2

/-- The conjunction claimed about sibling order for a source `resolve`
and filter `fs`:

1. builder: popping a fresh unfiltered node leaves its surviving
   post-filter dependencies on top of the stack in their original
   left-to-right order (they were pushed in reverse), followed by the
   old stack, so they are visited in exactly that order;
2. renderer: a rendered node's immediate child lines (the emitted lines
   carrying the extended child prefix) name exactly the post-filter
   dependency list, in order, with `is_last` — hence the `└── `
   connector — true exactly on the last remaining child and `├── ` on
   every earlier one. -/
def SiblingOrderPreserved (resolve : Resolve) (fs : String) : Prop :=
  (∀ (fuel : Nat) (current : String) (stack visited : List String) (graph : Graph)
    (calls : List String), current ∉ visited → matchesFilter fs current = false →
    build_loop resolve fs (fuel + 1) (current :: stack) visited graph calls =
      build_loop resolve fs fuel
        (((edeps resolve current).filter (fun d => !matchesFilter fs d)).filter
            (fun d => !decide (d ∈ current :: visited)) ++ stack)
        (current :: visited)
        (graph ++ [(current, (edeps resolve current).filter (fun d => !matchesFilter fs d))])
        (calls ++ [current])) ∧
  (∀ (fuel : Nat) (package pre : String) (is_last : Bool) (visited : List String)
    (ls : List TLine), matchesFilter fs package = false → package ∉ visited →
    print_ascii_tree resolve fs (fuel + 1) package pre is_last visited = some ls →
    (ls.filter (fun l =>
        l.pre == pre ++ (if is_last then "    " else "│   "))).map (fun l => l.pkg) =
        (edeps resolve package).filter (fun d => !matchesFilter fs d) ∧
      (ls.filter (fun l =>
        l.pre == pre ++ (if is_last then "    " else "│   "))).map (fun l => l.is_last) =
        lastFlags ((edeps resolve package).filter (fun d => !matchesFilter fs d)).length)

/-- C6: the builder visits the post-filter children of a node in their
exact left-to-right order (pushed in reverse, popped in order), and the
renderer prints them in that exact order with the last-sibling connector
on precisely the last child remaining after filtering. -/
theorem sibling_order_preserved (resolve : Resolve) (fs : String) :
    SiblingOrderPreserved resolve fs := by
  constructor
  · intro fuel current stack visited graph calls hv hm
    exact build_loop_step resolve fs fuel current stack visited graph calls hv hm
  · intro fuel package pre is_last visited ls hm hv h
    rw [print_ascii_tree_expand resolve fs fuel package pre is_last visited hm hv] at h
    cases hc : render_children resolve fs fuel
        ((edeps resolve package).filter (fun d => !matchesFilter fs d))
        (pre ++ (if is_last then "    " else "│   "))
        (visited ++ [package]) with
    | none => rw [hc] at h; simp at h
    | some kids =>
      rw [hc] at h
      simp at h
      have hds : ∀ d ∈ (edeps resolve package).filter (fun d => !matchesFilter fs d),
          matchesFilter fs d = false := by
        intro d hd
        simp at hd
        exact hd.2
      have hheads := render_children_heads resolve fs
        ((edeps resolve package).filter (fun d => !matchesFilter fs d)) fuel
        (pre ++ (if is_last then "    " else "│   ")) (visited ++ [package]) kids hc hds
      have hhead_ne : (⟨pre, is_last, package, false⟩ : TLine).pre ≠
          pre ++ (if is_last then "    " else "│   ") := by
        intro hEq
        have : pre.length = (pre ++ (if is_last then "    " else "│   ")).length := by
          rw [← hEq]
        rw [String.length_append, indent_unit_length] at this
        omega
      rw [← h, List.filter_cons]
      simp only [beq_iff_eq]
      rw [if_neg (by simpa using hhead_ne)]
      constructor
      · simpa using hheads.1
      · simpa using hheads.2

/-- Witness for C6: instantiated at the first fixture with no filter. -/
theorem sibling_order_preserved_witness :
    SiblingOrderPreserved (get_test_deps fixture1) "" :=
  sibling_order_preserved (get_test_deps fixture1) ""

end Config2

namespace Config2

/-! ## C10: the built graph is dependency-closed -/

/-- Keys of an appended graph. -/
theorem graphKeys_append (g1 g2 : Graph) :
    graphKeys (g1 ++ g2) = graphKeys g1 ++ graphKeys g2 := by
  simp [graphKeys]

/-- Loop invariant for closure: if every visited node is already a key
and every recorded dependency is a key or still on the stack, then in
the final graph old keys persist, everything on the stack becomes a key,
and every recorded dependency is a key. -/
theorem build_closed_aux (resolve : Resolve) (fs : String) :
    ∀ (fuel : Nat) (stack visited : List String) (graph : Graph) (calls : List String)
      (res : BuildResult),
      build_loop resolve fs fuel stack visited graph calls = some res →
      (∀ x ∈ visited, x ∈ graphKeys graph) →
      (∀ p ∈ graph, ∀ d ∈ p.2, d ∈ graphKeys graph ∨ d ∈ stack) →
      (∀ x ∈ graphKeys graph, x ∈ graphKeys res.graph) ∧
        (∀ x ∈ stack, x ∈ graphKeys res.graph) ∧
        (∀ p ∈ res.graph, ∀ d ∈ p.2, d ∈ graphKeys res.graph) := by
  intro fuel
  induction fuel with
  | zero =>
    intro stack visited graph calls res h hvk hg
    cases stack with
    | nil =>
      simp [build_loop] at h
      subst h
      refine ⟨fun x hx => hx, by simp, ?_⟩
      intro p hp d hd
      rcases hg p hp d hd with h1 | h1
      · exact h1
      · simp at h1
    | cons c rest => simp [build_loop] at h
  | succ n ih =>
    intro stack visited graph calls res h hvk hg
    cases stack with
    | nil =>
      simp [build_loop] at h
      subst h
      refine ⟨fun x hx => hx, by simp, ?_⟩
      intro p hp d hd
      rcases hg p hp d hd with h1 | h1
      · exact h1
      · simp at h1
    | cons current rest =>
      by_cases hv : current ∈ visited
      · rw [build_loop_skip _ _ _ _ _ _ _ _ hv] at h
        have hg' : ∀ p ∈ graph, ∀ d ∈ p.2, d ∈ graphKeys graph ∨ d ∈ rest := by
          intro p hp d hd
          rcases hg p hp d hd with h1 | h1
          · exact Or.inl h1
          · rcases List.mem_cons.mp h1 with h2 | h2
            · exact Or.inl (h2 ▸ hvk current hv)
            · exact Or.inr h2
        obtain ⟨hmono, hstack, hclosed⟩ := ih rest visited graph calls res h hvk hg'
        refine ⟨hmono, ?_, hclosed⟩
        intro x hx
        rcases List.mem_cons.mp hx with h1 | h1
        · exact hmono x (h1 ▸ hvk current hv)
        · exact hstack x h1
      · cases hm : matchesFilter fs current with
        | true =>
          rw [build_loop_step_matched _ _ _ _ _ _ _ _ hv hm] at h
          have hkeys : graphKeys (graph ++ [(current, [])]) =
              graphKeys graph ++ [current] := by simp [graphKeys]
          have hvk' : ∀ x ∈ current :: visited,
              x ∈ graphKeys (graph ++ [(current, [])]) := by
            intro x hx
            rw [hkeys]
            rcases List.mem_cons.mp hx with h1 | h1
            · simp [h1]
            · simp [hvk x h1]
          have hg' : ∀ p ∈ graph ++ [(current, [])], ∀ d ∈ p.2,
              d ∈ graphKeys (graph ++ [(current, [])]) ∨ d ∈ rest := by
            intro p hp d hd
            rcases List.mem_append.mp hp with h1 | h1
            · rcases hg p h1 d hd with h2 | h2
              · rw [hkeys]
                exact Or.inl (by simp [h2])
              · rcases List.mem_cons.mp h2 with h3 | h3
                · rw [hkeys]
                  exact Or.inl (by simp [h3])
                · exact Or.inr h3
            · simp at h1
              rw [h1] at hd
              simp at hd
          obtain ⟨hmono, hstack, hclosed⟩ :=
            ih rest (current :: visited) _ calls res h hvk' hg'
          have hmono' : ∀ x ∈ graphKeys graph, x ∈ graphKeys res.graph := by
            intro x hx
            exact hmono x (by rw [hkeys]; simp [hx])
          refine ⟨hmono', ?_, hclosed⟩
          intro x hx
          rcases List.mem_cons.mp hx with h1 | h1
          · exact hmono x (by rw [hkeys]; simp [h1])
          · exact hstack x h1
        | false =>
          rw [build_loop_step _ _ _ _ _ _ _ _ hv hm] at h
          have hkeys : graphKeys (graph ++ [(current,
              (edeps resolve current).filter (fun d => !matchesFilter fs d))]) =
              graphKeys graph ++ [current] := by simp [graphKeys]
          have hvk' : ∀ x ∈ current :: visited, x ∈ graphKeys (graph ++ [(current,
              (edeps resolve current).filter (fun d => !matchesFilter fs d))]) := by
            intro x hx
            rw [hkeys]
            rcases List.mem_cons.mp hx with h1 | h1
            · simp [h1]
            · simp [hvk x h1]
          have hg' : ∀ p ∈ graph ++ [(current,
              (edeps resolve current).filter (fun d => !matchesFilter fs d))],
              ∀ d ∈ p.2, d ∈ graphKeys (graph ++ [(current,
                (edeps resolve current).filter (fun d => !matchesFilter fs d))]) ∨
                d ∈ ((edeps resolve current).filter (fun d => !matchesFilter fs d)).filter
                    (fun d => !decide (d ∈ current :: visited)) ++ rest := by
            intro p hp d hd
            rcases List.mem_append.mp hp with h1 | h1
            · rcases hg p h1 d hd with h2 | h2
              · rw [hkeys]
                exact Or.inl (by simp [h2])
              · rcases List.mem_cons.mp h2 with h3 | h3
                · rw [hkeys]
                  exact Or.inl (by simp [h3])
                · exact Or.inr (List.mem_append.mpr (Or.inr h3))
            · simp only [List.mem_singleton] at h1
              rw [h1] at hd
              by_cases hdv : d ∈ current :: visited
              · exact Or.inl (hvk' d hdv)
              · refine Or.inr (List.mem_append.mpr (Or.inl ?_))
                exact List.mem_filter.mpr ⟨hd, by simp [hdv]⟩
          obtain ⟨hmono, hstack, hclosed⟩ := ih _ _ _ _ res h hvk' hg'
          have hmono' : ∀ x ∈ graphKeys graph, x ∈ graphKeys res.graph := by
            intro x hx
            exact hmono x (by rw [hkeys]; simp [hx])
          refine ⟨hmono', ?_, hclosed⟩
          intro x hx
          rcases List.mem_cons.mp hx with h1 | h1
          · exact hmono x (by rw [hkeys]; simp [h1])
          · exact hstack x (List.mem_append.mpr (Or.inr h1))

/-- C10: for every dependency source, root and filter substring, a
completed `build_full_dependency_graph` run returns a dependency-closed
graph: the root is a key, and every identifier occurring in any recorded
dependency list is itself a key (so the later
`get_deps_from_graph`-style lookup never misses a listed dependency). -/
theorem build_graph_dependency_closed (resolve : Resolve) (root fs : String)
    (fuel : Nat) (res : BuildResult)
    (h : build_full_dependency_graph resolve root fs fuel = some res) :
    root ∈ graphKeys res.graph ∧
      ∀ p ∈ res.graph, ∀ d ∈ p.2, d ∈ graphKeys res.graph := by
  obtain ⟨_, hstack, hclosed⟩ :=
    build_closed_aux resolve fs fuel [root] [] [] [] res h (by simp) (by simp)
  exact ⟨hstack root (by simp), hclosed⟩

/-- Witness for C10: the first fixture's completed build. -/
theorem build_graph_dependency_closed_witness :
    build_full_dependency_graph (get_test_deps fixture1) "A" "" 10 =
        some ⟨fixture1, ["A", "B", "C"]⟩ ∧
      ("A" ∈ graphKeys (BuildResult.mk fixture1 ["A", "B", "C"]).graph ∧
        ∀ p ∈ (BuildResult.mk fixture1 ["A", "B", "C"]).graph, ∀ d ∈ p.2,
          d ∈ graphKeys (BuildResult.mk fixture1 ["A", "B", "C"]).graph) :=
  ⟨rfl, build_graph_dependency_closed (get_test_deps fixture1) "A" "" 10
    ⟨fixture1, ["A", "B", "C"]⟩ rfl⟩

end Config2

namespace Config2

/-! ## C9: termination of the builder on finite identifier spaces -/

/-- Remaining work: total length of the effective dependency lists of
the not-yet-visited identifiers of the finite space `S`. -/
def Wmeasure (resolve : Resolve) (S visited : List String) : Nat :=
  ((S.filter (fun p => !decide (p ∈ visited))).map
    (fun p => (edeps resolve p).length)).sum

/-- Unfolding `Wmeasure` over the head of the space. -/
theorem Wmeasure_cons (resolve : Resolve) (p : String) (t visited : List String) :
    Wmeasure resolve (p :: t) visited =
      (if p ∈ visited then 0 else (edeps resolve p).length) +
        Wmeasure resolve t visited := by
  by_cases h : p ∈ visited <;> simp [Wmeasure, List.filter_cons, h]

/-- Growing the visited set never increases the remaining work. -/
theorem Wmeasure_mono (resolve : Resolve) (v1 v2 : List String)
    (hsub : ∀ x ∈ v1, x ∈ v2) :
    ∀ S : List String, Wmeasure resolve S v2 ≤ Wmeasure resolve S v1 := by
  intro S
  induction S with
  | nil => exact Nat.le_refl _
  | cons p t ih =>
    rw [Wmeasure_cons, Wmeasure_cons]
    by_cases h2 : p ∈ v2
    · by_cases h1 : p ∈ v1
      · simp [h1, h2]
        exact ih
      · simp [h1, h2]
        omega
    · have h1 : p ∉ v1 := fun hb => h2 (hsub p hb)
      simp [h1, h2]
      omega

/-- Visiting a fresh identifier of `S` pays for its whole effective
dependency list: the remaining work drops by at least that much. -/
theorem Wmeasure_drop (resolve : Resolve) (current : String) (visited : List String)
    (hv : current ∉ visited) :
    ∀ S : List String, current ∈ S →
      Wmeasure resolve S (current :: visited) + (edeps resolve current).length ≤
        Wmeasure resolve S visited := by
  intro S
  induction S with
  | nil => intro h; simp at h
  | cons p t ih =>
    intro hmem
    rw [Wmeasure_cons, Wmeasure_cons]
    by_cases hpc : p = current
    · subst hpc
      have hp1 : p ∈ p :: visited := by simp
      have hmo := Wmeasure_mono resolve visited (p :: visited)
        (fun x hx => List.mem_cons_of_mem _ hx) t
      simp [hp1, hv]
      omega
    · have hct : current ∈ t := by
        rcases List.mem_cons.mp hmem with h1 | h1
        · exact absurd h1.symm hpc
        · exact h1
      have hpv : (p ∈ current :: visited) ↔ (p ∈ visited) := by
        simp [List.mem_cons, hpc]
      have hi := ih hct
      by_cases hp : p ∈ visited
      · simp [hp, hpv.mpr hp]
        omega
      · have : p ∉ current :: visited := fun hb => hp (hpv.mp hb)
        simp [hp, this]
        omega

/-- With fuel at least `stack length + remaining work`, and a stack
inside the dependency-closed finite space `S`, the builder loop
completes. -/
theorem build_term_aux (resolve : Resolve) (fs : String) (S : List String)
    (hclosed : ∀ p ∈ S, ∀ d ∈ edeps resolve p, d ∈ S) :
    ∀ (fuel : Nat) (stack visited : List String) (graph : Graph) (calls : List String),
      (∀ x ∈ stack, x ∈ S) →
      stack.length + Wmeasure resolve S visited ≤ fuel →
      ∃ res, build_loop resolve fs fuel stack visited graph calls = some res := by
  intro fuel
  induction fuel with
  | zero =>
    intro stack visited graph calls hs hb
    cases stack with
    | nil => exact ⟨⟨graph, calls⟩, by simp [build_loop]⟩
    | cons c rest =>
      simp [List.length_cons] at hb
  | succ n ih =>
    intro stack visited graph calls hs hb
    cases stack with
    | nil => exact ⟨⟨graph, calls⟩, by simp [build_loop]⟩
    | cons current rest =>
      simp only [List.length_cons] at hb
      by_cases hv : current ∈ visited
      · rw [build_loop_skip _ _ _ _ _ _ _ _ hv]
        exact ih rest visited graph calls
          (fun x hx => hs x (List.mem_cons_of_mem _ hx)) (by omega)
      · cases hm : matchesFilter fs current with
        | true =>
          rw [build_loop_step_matched _ _ _ _ _ _ _ _ hv hm]
          have hmo := Wmeasure_mono resolve visited (current :: visited)
            (fun x hx => List.mem_cons_of_mem _ hx) S
          exact ih rest (current :: visited) _ _
            (fun x hx => hs x (List.mem_cons_of_mem _ hx)) (by omega)
        | false =>
          rw [build_loop_step _ _ _ _ _ _ _ _ hv hm]
          have hcS : current ∈ S := hs current (by simp)
          have hlen : (((edeps resolve current).filter
              (fun d => !matchesFilter fs d)).filter
                (fun d => !decide (d ∈ current :: visited))).length ≤
              (edeps resolve current).length :=
            Nat.le_trans (List.length_filter_le _ _) (List.length_filter_le _ _)
          have hdrop := Wmeasure_drop resolve current visited hv S hcS
          apply ih _ (current :: visited) _ _ ?_ ?_
          · intro x hx
            rcases List.mem_append.mp hx with h1 | h1
            · have h2 := List.mem_filter.mp h1
              have h3 := List.mem_filter.mp h2.1
              exact hclosed current hcS x h3.1
            · exact hs x (List.mem_cons_of_mem _ h1)
          · rw [List.length_append]
            omega

/-- C9: for every dependency source whose reachable identifiers lie in a
finite, dependency-closed space `S` — cyclic sources included — the
builder terminates: some finite fuel completes the run (the visited set
blocks every re-expansion, so each identifier is expanded at most once
and pushed at most finitely often). -/
theorem build_terminates (resolve : Resolve) (root fs : String) (S : List String)
    (hroot : root ∈ S) (hclosed : ∀ p ∈ S, ∀ d ∈ edeps resolve p, d ∈ S) :
    ∃ (fuel : Nat) (res : BuildResult),
      build_full_dependency_graph resolve root fs fuel = some res := by
  obtain ⟨res, hres⟩ := build_term_aux resolve fs S hclosed
    (1 + Wmeasure resolve S []) [root] [] [] []
    (by intro x hx; simp at hx; rw [hx]; exact hroot)
    (by simp)
  exact ⟨1 + Wmeasure resolve S [], res, hres⟩

/-- Witness for C9: the cyclic fixture `{A: [B], B: [A]}` inside the
space `["A", "B"]`. -/
theorem build_terminates_witness :
    ("A" : String) ∈ ["A", "B"] ∧
      (∀ p ∈ ["A", "B"], ∀ d ∈ edeps (get_test_deps fixture2) p, d ∈ ["A", "B"]) ∧
      ∃ (fuel : Nat) (res : BuildResult),
        build_full_dependency_graph (get_test_deps fixture2) "A" "" fuel = some res :=
  ⟨by decide, by decide,
    build_terminates (get_test_deps fixture2) "A" "" ["A", "B"] (by decide) (by decide)⟩

end Config2

namespace Config2

/-! ## C7: each reachable identifier is resolved exactly once -/

/-- Reachability from `root` through the effective dependency lists of
`resolve`. -/
inductive Reaches (resolve : Resolve) (root : String) : String → Prop
  | refl : Reaches resolve root root
  | step {p d : String} : Reaches resolve root p → d ∈ edeps resolve p →
      Reaches resolve root d

/-- Loop invariant for the empty filter: visited coincides with the key
set, keys are distinct, the fetch trace equals the key list, everything
recorded is reachable, and at the end the key set contains the root and
is closed under effective dependencies. -/
theorem build_reach_aux (resolve : Resolve) (root : String) :
    ∀ (fuel : Nat) (stack visited : List String) (graph : Graph) (calls : List String)
      (res : BuildResult),
      build_loop resolve "" fuel stack visited graph calls = some res →
      (∀ x, x ∈ visited ↔ x ∈ graphKeys graph) →
      (graphKeys graph).Nodup →
      calls = graphKeys graph →
      (∀ x ∈ stack, Reaches resolve root x) →
      (∀ x ∈ visited, Reaches resolve root x) →
      (∀ x ∈ visited, ∀ d ∈ edeps resolve x, d ∈ visited ∨ d ∈ stack) →
      (root ∈ visited ∨ root ∈ stack) →
      (graphKeys res.graph).Nodup ∧
        res.calls = graphKeys res.graph ∧
        (∀ x ∈ graphKeys res.graph, Reaches resolve root x) ∧
        root ∈ graphKeys res.graph ∧
        (∀ x ∈ graphKeys res.graph, ∀ d ∈ edeps resolve x, d ∈ graphKeys res.graph) := by
  intro fuel
  induction fuel with
  | zero =>
    intro stack visited graph calls res h hvk hnd hceq hsr hvr hcov hroot
    cases stack with
    | nil =>
      simp [build_loop] at h
      subst h
      refine ⟨hnd, hceq, ?_, ?_, ?_⟩
      · intro x hx
        exact hvr x ((hvk x).mpr hx)
      · rcases hroot with h1 | h1
        · exact (hvk root).mp h1
        · simp at h1
      · intro x hx d hd
        rcases hcov x ((hvk x).mpr hx) d hd with h1 | h1
        · exact (hvk d).mp h1
        · simp at h1
    | cons c rest => simp [build_loop] at h
  | succ n ih =>
    intro stack visited graph calls res h hvk hnd hceq hsr hvr hcov hroot
    cases stack with
    | nil =>
      simp [build_loop] at h
      subst h
      refine ⟨hnd, hceq, ?_, ?_, ?_⟩
      · intro x hx
        exact hvr x ((hvk x).mpr hx)
      · rcases hroot with h1 | h1
        · exact (hvk root).mp h1
        · simp at h1
      · intro x hx d hd
        rcases hcov x ((hvk x).mpr hx) d hd with h1 | h1
        · exact (hvk d).mp h1
        · simp at h1
    | cons current rest =>
      by_cases hv : current ∈ visited
      · rw [build_loop_skip _ _ _ _ _ _ _ _ hv] at h
        refine ih rest visited graph calls res h hvk hnd hceq
          (fun x hx => hsr x (List.mem_cons_of_mem _ hx)) hvr ?_ ?_
        · intro x hx d hd
          rcases hcov x hx d hd with h1 | h1
          · exact Or.inl h1
          · rcases List.mem_cons.mp h1 with h2 | h2
            · exact Or.inl (h2 ▸ hv)
            · exact Or.inr h2
        · rcases hroot with h1 | h1
          · exact Or.inl h1
          · rcases List.mem_cons.mp h1 with h2 | h2
            · exact Or.inl (h2 ▸ hv)
            · exact Or.inr h2
      · rw [build_loop_step _ _ _ _ _ _ _ _ hv (matchesFilter_empty current)] at h
        simp only [filter_matchesFilter_empty] at h
        have hRc : Reaches resolve root current := hsr current (by simp)
        have hkeys : ∀ x, x ∈ graphKeys (graph ++ [(current, edeps resolve current)]) ↔
            x ∈ graphKeys graph ∨ x = current := by
          intro x
          rw [graphKeys_append]
          simp [graphKeys]
        have hcur_not : current ∉ graphKeys graph :=
          fun hc => hv ((hvk current).mpr hc)
        refine ih _ _ _ _ res h ?_ ?_ ?_ ?_ ?_ ?_ ?_
        · intro x
          rw [hkeys x, List.mem_cons]
          constructor
          · rintro (rfl | hx)
            · exact Or.inr rfl
            · exact Or.inl ((hvk x).mp hx)
          · rintro (hx | rfl)
            · exact Or.inr ((hvk x).mpr hx)
            · exact Or.inl rfl
        · rw [graphKeys_append, List.nodup_append]
          refine ⟨hnd, by simp [graphKeys], ?_⟩
          intro x hx
          simp [graphKeys]
          intro hxc
          rw [hxc] at hx
          exact hcur_not hx
        · rw [graphKeys_append, hceq]
          simp [graphKeys]
        · intro x hx
          rcases List.mem_append.mp hx with h1 | h1
          · have h2 := List.mem_filter.mp h1
            exact Reaches.step hRc h2.1
          · exact hsr x (List.mem_cons_of_mem _ h1)
        · intro x hx
          rcases List.mem_cons.mp hx with h1 | h1
          · exact h1 ▸ hRc
          · exact hvr x h1
        · intro x hx d hd
          rcases List.mem_cons.mp hx with h1 | h1
          · subst h1
            by_cases hdv : d ∈ x :: visited
            · exact Or.inl hdv
            · refine Or.inr (List.mem_append.mpr (Or.inl ?_))
              exact List.mem_filter.mpr ⟨hd, by simp [hdv]⟩
          · rcases hcov x h1 d hd with h2 | h2
            · exact Or.inl (List.mem_cons_of_mem _ h2)
            · rcases List.mem_cons.mp h2 with h3 | h3
              · exact Or.inl (by simp [h3])
              · exact Or.inr (List.mem_append.mpr (Or.inr h3))
        · rcases hroot with h1 | h1
          · exact Or.inl (List.mem_cons_of_mem _ h1)
          · rcases List.mem_cons.mp h1 with h2 | h2
            · exact Or.inl (by simp [h2])
            · exact Or.inr (List.mem_append.mpr (Or.inr h2))

/-- C7: for every dependency source whose reachable identifiers lie in a
finite dependency-closed space `S` (in particular every finite acyclic
source) and an empty filter substring, the builder completes, resolves
each identifier reachable from the root exactly once (the fetch trace
lists each reachable identifier once and nothing else), and the key set
of the returned graph is exactly the set of identifiers reachable from
the root. -/
theorem build_resolves_reachable_once (resolve : Resolve) (root : String)
    (S : List String) (hroot : root ∈ S)
    (hclosed : ∀ p ∈ S, ∀ d ∈ edeps resolve p, d ∈ S) :
    ∃ (fuel : Nat) (res : BuildResult),
      build_full_dependency_graph resolve root "" fuel = some res ∧
        res.calls.Nodup ∧
        (∀ x, x ∈ res.calls ↔ Reaches resolve root x) ∧
        (∀ x, x ∈ graphKeys res.graph ↔ Reaches resolve root x) := by
  obtain ⟨res, hres⟩ := build_term_aux resolve "" S hclosed
    (1 + Wmeasure resolve S []) [root] [] [] []
    (by intro x hx; simp at hx; rw [hx]; exact hroot)
    (by simp)
  obtain ⟨hnd, hceq, hreach, hrootk, hclo⟩ :=
    build_reach_aux resolve root (1 + Wmeasure resolve S []) [root] [] [] [] res hres
      (by simp [graphKeys]) (by simp [graphKeys]) rfl
      (by intro x hx; simp at hx; rw [hx]; exact Reaches.refl)
      (by simp) (by simp) (by simp)
  have hcomplete : ∀ x, Reaches resolve root x → x ∈ graphKeys res.graph := by
    intro x hx
    induction hx with
    | refl => exact hrootk
    | step hp hd ihp => exact hclo _ ihp _ hd
  refine ⟨1 + Wmeasure resolve S [], res, hres, hceq ▸ hnd, ?_, ?_⟩
  · intro x
    rw [hceq]
    exact ⟨fun hx => hreach x hx, fun hx => hcomplete x hx⟩
  · intro x
    exact ⟨fun hx => hreach x hx, fun hx => hcomplete x hx⟩

/-- Witness for C7: the acyclic first fixture inside `["A", "B", "C"]`. -/
theorem build_resolves_reachable_once_witness :
    ("A" : String) ∈ ["A", "B", "C"] ∧
      (∀ p ∈ ["A", "B", "C"], ∀ d ∈ edeps (get_test_deps fixture1) p,
        d ∈ ["A", "B", "C"]) ∧
      ∃ (fuel : Nat) (res : BuildResult),
        build_full_dependency_graph (get_test_deps fixture1) "A" "" fuel = some res ∧
          res.calls.Nodup ∧
          (∀ x, x ∈ res.calls ↔ Reaches (get_test_deps fixture1) "A" x) ∧
          (∀ x, x ∈ graphKeys res.graph ↔ Reaches (get_test_deps fixture1) "A" x) :=
  ⟨by decide, by decide,
    build_resolves_reachable_once (get_test_deps fixture1) "A" ["A", "B", "C"]
      (by decide) (by decide)⟩

end Config2
